import Mathlib

/-!
Verification of the KiCAD_Utilities repository (files
`python/kicad_utils.py` and `python/example_update_pcb_from_dxf.py`).

The Python code is shallowly embedded:
* Python floats are modelled as rationals (`ℚ`); `round(x, n)` becomes
  rounding of `10^n * x` to the nearest integer.
* `pandas` DataFrames with columns x, y, r, label, channel become
  `List Row`; row order of the frame is the list order.
* Python `str` stays `String`; the substring test `pat in s` becomes
  `occurs pat s`.
* Functions that can raise return `Except`/`Option`-style results; file
  writes are modelled by returning the name and contents that would be
  written.
-/

/-- Python `pat in s` (substring occurrence) on strings. -/
def occurs (pat s : String) : Bool := decide (pat.data <:+: s.data)

theorem occurs_iff {pat s : String} : occurs pat s = true ↔ pat.data <:+: s.data := by
  simp [occurs]

/-- If `p` occurs inside `q` then any string containing `q` contains `p`. -/
theorem occurs_of_occurs_of_infix {p q s : String} (h : p.data <:+: q.data)
    (hq : occurs q s = true) : occurs p s = true := by
  rw [occurs_iff] at hq ⊢
  exact h.trans hq

/-- A circular entity of the input drawing: centre and radius, as reported
by the DXF reader before any rounding (`entity.dxf.center`, `entity.dxf.radius`). -/
structure RawEntity where
  cx : ℚ
  cy : ℚ
  radius : ℚ
deriving DecidableEq, Repr

/-- One entry of the `pcb_data_dict` argument: dict key (`name`) plus the
`radius` and `entity` fields of its value. List order is dict insertion order. -/
structure ElementSpec where
  name : String
  radius : ℚ
  entity : String
deriving DecidableEq, Repr

/-- A row of the intermediate `results` frame: columns x, y, r, label. -/
structure Row4 where
  x : ℚ
  y : ℚ
  r : ℚ
  label : String
deriving DecidableEq, Repr

/-- A row of the final frame: columns x, y, r, label, channel. -/
structure Row where
  x : ℚ
  y : ℚ
  r : ℚ
  label : String
  channel : Nat
deriving DecidableEq, Repr

/-- Python `round(q, 2)` (two decimal places), on the rational model. -/
def round2 (q : ℚ) : ℚ := (round (100 * q) : ℤ) / 100

/-- Python `round(q, 1)` (one decimal place), on the rational model. -/
def round1 (q : ℚ) : ℚ := (round (10 * q) : ℤ) / 10

/-- `np.isclose(a, b, atol=0.1)` with numpy's default `rtol = 1e-5`:
`|a - b| <= atol + rtol * |b|`. -/
def npIsClose (a b : ℚ) : Bool := decide (|a - b| ≤ 1/10 + |b| / 100000)

/-- Rendering of a numeric value into a label or file line. -/
def fmtQ (q : ℚ) : String := toString q

/-- The label the extractor gives a circle of (rounded) radius `r`: the first
spec of kind CIRCLE whose radius is `np.isclose` to `r`, else `radius_<r>`. -/
def labelOf (specs : List ElementSpec) (r : ℚ) : String :=
  match specs.find? (fun sp => sp.entity == "CIRCLE" && npIsClose r sp.radius) with
  | some sp => sp.name
  | none => "radius_" ++ fmtQ r

/-- The `results` row built for one CIRCLE entity (rounding then labelling). -/
def entityRow (specs : List ElementSpec) (e : RawEntity) : Row4 :=
  { x := round2 e.cx, y := round2 e.cy, r := round1 e.radius
    label := labelOf specs (round1 e.radius) }

/-- Frame deduplication (`drop_duplicates`): keep the first occurrence of
each row, preserving order. `seen` accumulates rows already kept. -/
def dedupGo (seen : List Row4) : List Row4 → List Row4
  | [] => []
  | r :: rs => if r ∈ seen then dedupGo seen rs else r :: dedupGo (r :: seen) rs

/-- `DataFrame.drop_duplicates()` on the four-column frame. -/
def dedup (rows : List Row4) : List Row4 := dedupGo [] rows

/-- Number of rows of `rows` carrying label `lab`. -/
def countLabel4 (lab : String) (rows : List Row4) : Nat :=
  (rows.filter (fun r => r.label == lab)).length

/-- Channel assignment `df.groupby('label').cumcount() + 1`: each row's
channel is one plus the number of earlier rows with the same label.
`prior` holds the rows already processed. -/
def assignFrom (prior : List Row4) : List Row4 → List Row
  | [] => []
  | r :: rs =>
      { x := r.x, y := r.y, r := r.r, label := r.label
        channel := countLabel4 r.label prior + 1 } :: assignFrom (prior ++ [r]) rs

/-- `KiCadUtils.get_coordinates_from_dxf`, after the DXF reader produced the
CIRCLE `entities` list. `flip_y` appears in the Python signature but is
never read in the body; `visualize`, `export` and `verbose` only control
plotting/CSV/printing side effects. -/
def get_coordinates_from_dxf (entities : List RawEntity) (specs : List ElementSpec)
    (flip_y visualize export_csv verbose : Bool) : List Row :=
  assignFrom [] (dedup (entities.map (entityRow specs)))

/-- The triple of the three coordinate columns of a row (`['x','y','r']`). -/
def triple (r : Row) : ℚ × ℚ × ℚ := (r.x, r.y, r.r)

/-- Overwrite the x, y, r columns of one row, keeping label and channel. -/
def setTriple (r : Row) (v : ℚ × ℚ × ℚ) : Row :=
  { r with x := v.1, y := v.2.1, r := v.2.2 }

/-- Overwrite one row's channel column. -/
def setChan (r : Row) (c : Nat) : Row := { r with channel := c }

/-- Number of rows of `rows` carrying label `lab`. -/
def countLabel (lab : String) (rows : List Row) : Nat :=
  (rows.filter (fun r => r.label == lab)).length

/-- The rows of `rows` carrying label `lab`, in frame order. -/
def labelRows (lab : String) (rows : List Row) : List Row :=
  rows.filter (fun r => r.label == lab)

/-- The final offset translation and optional y negation applied to the
selected label's columns at the end of `apply_remapping_v2`. -/
def transformRow (offset : ℚ × ℚ) (flip_y : Bool) (r : Row) : Row :=
  { r with x := r.x + offset.1
           y := if flip_y then -(r.y + offset.2) else r.y + offset.2 }

/-- The same translation/negation on a bare (x, y, r) triple. -/
def transformTriple (offset : ℚ × ℚ) (flip_y : Bool) (v : ℚ × ℚ × ℚ) : ℚ × ℚ × ℚ :=
  (v.1 + offset.1, if flip_y then -(v.2.1 + offset.2) else v.2.1 + offset.2, v.2.2)

/-- The sort key of `sort_values(by=["x", "y"], ascending=[True, False])`:
x ascending, then y descending. -/
def forearmR (a b : Row) : Prop := a.x < b.x ∨ (a.x = b.x ∧ b.y ≤ a.y)

instance : DecidableRel forearmR := fun a b => by
  unfold forearmR; infer_instance

instance : IsTotal Row forearmR where
  total a b := by
    unfold forearmR
    rcases lt_trichotomy a.x b.x with h | h | h
    · exact Or.inl (Or.inl h)
    · rcases le_total b.y a.y with hy | hy
      · exact Or.inl (Or.inr ⟨h, hy⟩)
      · exact Or.inr (Or.inr ⟨h.symm, hy⟩)
    · exact Or.inr (Or.inl h)

instance : IsTrans Row forearmR where
  trans a b c hab hbc := by
    unfold forearmR at *
    rcases hab with h1 | ⟨h1, h1y⟩
    · rcases hbc with h2 | ⟨h2, _⟩
      · exact Or.inl (h1.trans h2)
      · exact Or.inl (h2 ▸ h1)
    · rcases hbc with h2 | ⟨h2, h2y⟩
      · exact Or.inl (h1 ▸ h2)
      · exact Or.inr ⟨h1.trans h2, h2y.trans h1y⟩

/-- Reassignment `selected_df['channel'] = range(n, n + len)`. -/
def renumberFrom (n : Nat) : List Row → List Row
  | [] => []
  | r :: rs => setChan r n :: renumberFrom (n + 1) rs

/-- Membership of a row's channel in an inclusive channel range
(`(df['channel'] >= s) & (df['channel'] <= e)`). -/
def inChanRange (s e : Nat) (r : Row) : Bool := decide (s ≤ r.channel ∧ r.channel ≤ e)

/-- `df.loc[indices, ['x','y','r']] = values`: walk the frame in order and
overwrite the coordinate triple of every row selected by `p` with the next
value of `vals`; other rows pass through. -/
def setTriples (p : Row → Bool) : List (ℚ × ℚ × ℚ) → List Row → List Row
  | _, [] => []
  | vals, r :: rs =>
      if p r then
        match vals with
        | [] => r :: setTriples p [] rs
        | v :: vs => setTriple r v :: setTriples p vs rs
      else r :: setTriples p vals rs

/-- One `(start1, end1, start2, end2)` swap of the remapping loop: exchange
the (x, y, r) values of the rows whose channel lies in range 1 with those of
the rows whose channel lies in range 2. When the two index sets have
different sizes the pandas `.loc` assignment raises, modelled as an error. -/
def swapRanges (pr : Nat × Nat × Nat × Nat) (rows : List Row) : Except String (List Row) :=
  let p1 := inChanRange pr.1 pr.2.1
  let p2 := inChanRange pr.2.2.1 pr.2.2.2
  let v1 := (rows.filter p1).map triple
  let v2 := (rows.filter p2).map triple
  if v1.length = v2.length then
    .ok (setTriples p2 v1 (setTriples p1 v2 rows))
  else .error "pandas .loc assignment: shape mismatch"

/-- The `swap_pairs` table (identical in the 8-by-8 and 8-by-8_swap branches). -/
def swapPairs8 : List (Nat × Nat × Nat × Nat) :=
  [(9, 16, 17, 24), (17, 24, 33, 40), (49, 56, 25, 32), (65, 72, 33, 40),
   (81, 88, 41, 48), (97, 104, 49, 56), (113, 120, 57, 64),
   (97, 104, 73, 80), (113, 120, 89, 96), (113, 120, 105, 112)]

/-- The `for start1, end1, start2, end2 in swap_pairs` loop. -/
def applySwaps : List (Nat × Nat × Nat × Nat) → List Row → Except String (List Row)
  | [], rows => .ok rows
  | pr :: ps, rows => do applySwaps ps (← swapRanges pr rows)

/-- `selected_df.loc[i, 'channel'] = c` where `i` is an index label of the
filtered frame (pairs of original frame position and row). If `i` is not
present, pandas enlarges the frame with a NaN-valued row; NaN is outside
the rational value model, so that case is reported as an error (every
theorem below stays on frames with at most 128 selected rows, where this
branch is never reached). -/
def locSetChannel (i : Nat) (c : Nat) (l : List (Nat × Row)) : Except String (List (Nat × Row)) :=
  if l.any (fun p => p.1 == i) then
    .ok (l.map (fun p => if p.1 == i then (p.1, setChan p.2 c) else p))
  else .error "pandas .loc enlargement adds a NaN row"

/-- The closed set of recognized remapping style names. -/
def knownStyle (s : String) : Bool :=
  s == "8-by-8" || s == "8-by-8_swap" || s == "forearm-pattern"

/-- The style dispatch of `apply_remapping_v2` on the selected rows: the
8-by-8 swap chain, the same chain followed by the 1-64/65-128 block swap,
or the forearm sort-and-renumber. -/
def remapStyle (style : String) (selected : List Row) : Except String (List Row) :=
  if style == "8-by-8" then applySwaps swapPairs8 selected
  else if style == "8-by-8_swap" then do
    let a ← applySwaps swapPairs8 selected
    swapRanges (1, 64, 65, 128) a
  else .ok (renumberFrom 1 (List.insertionSort forearmR selected))

/-- `KiCadUtils.apply_remapping_v2`. An unknown style and an absent label
both return the input frame unchanged (before any offset is applied). For
a recognized style the selected label's rows are separated out, the 129/130
channel reassignment fires when at least 129 rows are selected, the style's
remapping runs, the offset and optional y flip are applied to the selected
rows only, and the untouched other rows are concatenated after them. -/
def apply_remapping_v2 (df : List Row) (remapping_style label : String)
    (offset : ℚ × ℚ) (flip_y : Bool) : Except String (List Row) :=
  if ¬ df.any (fun r => r.label == label) then .ok df
  else if ¬ knownStyle remapping_style then .ok df
  else do
    let selIdx := df.enum.filter (fun p => p.2.label == label)
    let others := df.filter (fun r => r.label != label)
    let selIdx ←
      if 129 ≤ selIdx.length then do
        let a ← locSetChannel 0 129 selIdx
        locSetChannel (a.length - 1) 130 a
      else pure selIdx
    let selected := selIdx.map (fun p => p.2)
    let remapped ← remapStyle remapping_style selected
    .ok (remapped.map (transformRow offset flip_y) ++ others)

/-- The parameter names of `KiCadUtils.apply_remapping_v2` in the source. -/
def applyRemappingV2Params : List String :=
  ["df", "remapping_style", "label", "offset", "flip_y", "verbose"]

/-- The keyword-argument names used at the Step 6 call site of
`example_update_pcb_from_dxf.main` (the frame itself is passed positionally). -/
def step6Kwargs : List String :=
  ["remapping_style", "label", "style", "offset", "flip_y", "verbose"]

/-- Python keyword binding: a call is accepted only when every keyword names
a parameter of the callee; otherwise a TypeError is raised at the call. -/
def kwargsAccepted (params kwargs : List String) : Bool :=
  kwargs.all (fun k => params.contains k)

/-- The coordinate-line pattern fragment searched for by the rewriter. -/
def atPat : String := "(at "

/-- The property-line marker excluded by the rewriter's first two tests. -/
def propPat : String := "property"

/-- The reference-designator property pattern of the rewriter's third test. -/
def refPat : String := "(property \"Reference\" \""

/-- The pattern used to split out the designator text
(`line.split('"Reference" "')[1]`). -/
def refSplitPat : String := "\"Reference\" \""

/-- The footprint-opening pattern `(footprint "<name>"`. -/
def declPat (F : String) : String := "(footprint \"" ++ F ++ "\""

/-- Text after the first occurrence of `pat`, or `none` if `pat` is absent. -/
def dropThrough (pat : List Char) (s : List Char) : Option (List Char) :=
  match s with
  | [] => if pat.isEmpty then some [] else none
  | _ :: tl => if pat.isPrefixOf s then some (s.drop pat.length) else dropThrough pat tl

/-- Characters before the first double quote (`.split('"')[0]`). -/
def upToQuote (s : List Char) : List Char := s.takeWhile (fun c => c ≠ '"')

/-- The first maximal run of digits (`re.split(r'(\d+)', ref)[1]`), or `none`
when the text holds no digit (in which case Python raises IndexError). -/
def firstDigitRun : List Char → Option (List Char)
  | [] => none
  | c :: cs => if c.isDigit then some (c :: cs.takeWhile Char.isDigit) else firstDigitRun cs

/-- Decimal value of a digit string (`int(...)`). -/
def digitsToNat (l : List Char) : Nat :=
  l.foldl (fun a c => 10 * a + (c.toNat - 48)) 0

/-- The channel number parsed from a reference-designator line:
`int(re.split(r'(\d+)', line.split('"Reference" "')[1].split('"')[0])[1])`.
Python's first split keeps only the text up to the next occurrence of the
split pattern, but the subsequent cut at the first `"` makes that boundary
irrelevant (the split pattern itself starts with `"`), so taking the whole
text after the first occurrence is equivalent. -/
def refChannelOfLine (line : String) : Option Nat :=
  (dropThrough refSplitPat.data line.data).bind fun rest =>
    (firstDigitRun (upToQuote rest)).map digitsToNat

/-- The replacement coordinate line written by the rewriter:
`f'\t\t(at {xi} {yi})\n'`. -/
def coordLineFor (row : Row) : String :=
  "\t\t(at " ++ fmtQ row.x ++ " " ++ fmtQ row.y ++ ")\n"

/-- The loop state of `update_footprint`: the (mutable) line list plus the
five scalar loop variables. `coordinatesLine`/`currentChannel` are `none`
while their Python counterparts are `None`. -/
structure ScanState where
  lines : List String
  footprintsUpdated : Nat
  insideFootprint : Bool
  haveCoordinates : Bool
  foundChannel : Bool
  coordinatesLine : Option Nat
  currentChannel : Option Nat
deriving DecidableEq, Repr

/-- The loop state before the first iteration. -/
def initState (lines : List String) : ScanState :=
  ⟨lines, 0, false, false, false, none, none⟩

/-- The fourth stage of one loop iteration: when the flags show a recorded
coordinate line and a found channel, look the channel up in the frame,
overwrite the recorded line on a hit, and reset the block flags either way.
The two inner `none` fallbacks are unreachable because the flags are only
set together with their companion values. -/
def commitStep (df : List Row) (s : ScanState) : ScanState :=
  if s.insideFootprint && s.haveCoordinates && s.foundChannel then
    let s' := { s with insideFootprint := false, haveCoordinates := false,
                       foundChannel := false, currentChannel := none }
    match s.currentChannel with
    | some c =>
        match df.find? (fun r => r.channel == c) with
        | some row =>
            match s.coordinatesLine with
            | some j => { s' with lines := s.lines.set j (coordLineFor row),
                                  footprintsUpdated := s.footprintsUpdated + 1 }
            | none => s'
        | none => s'
    | none => s'
  else s

/-- One iteration of the `for i, line in enumerate(lines)` loop (tests 1-4
on the line at position `i`). An `.error` is the IndexError raised when a
reference designator holds no digits. -/
def scanStep (df : List Row) (F : String) (s : ScanState) (i : Nat) : Except Unit ScanState :=
  let line := s.lines.getD i ""
  let inside := if occurs (declPat F) line && !(occurs propPat line) then true
                else s.insideFootprint
  let coordHit := inside && occurs atPat line && !(occurs propPat line)
  let s1 : ScanState :=
    { s with insideFootprint := inside
             haveCoordinates := if coordHit then true else s.haveCoordinates
             coordinatesLine := if coordHit then some i else s.coordinatesLine }
  if inside && occurs refPat line then
    match refChannelOfLine line with
    | none => .error ()
    | some c => .ok (commitStep df { s1 with foundChannel := true, currentChannel := some c })
  else .ok (commitStep df s1)

/-- The whole loop from position `i` on: stop at the end of the list or as
soon as the update count has reached the frame's row count (the `break`). -/
def scanFrom (df : List Row) (F : String) : Nat → ScanState → Nat → Except Unit ScanState
  | 0, s, _ => .ok s
  | fuel + 1, s, i =>
      if s.lines.length ≤ i then .ok s
      else if df.length ≤ s.footprintsUpdated then .ok s
      else do scanFrom df F fuel (← scanStep df F s i) (i + 1)

/-- Index of the last occurrence of `c`, or -1 (Python `str.rfind`). -/
def rfindIdx (c : Char) : List Char → Int
  | [] => -1
  | d :: tl =>
      let r := rfindIdx c tl
      if 0 ≤ r then r + 1 else if d == c then 0 else -1

/-- `os.path.splitext` (posix rules): split at the last dot, unless the
basename up to that dot consists solely of dots. -/
def splitext (p : String) : String × String :=
  let cs := p.data
  let sepI := rfindIdx '/' cs
  let dotI := rfindIdx '.' cs
  if sepI < dotI then
    let base := (cs.drop (sepI + 1).toNat).take (dotI - sepI - 1).toNat
    if base.any (fun c => c ≠ '.') then (⟨cs.take dotI.toNat⟩, ⟨cs.drop dotI.toNat⟩)
    else (p, "")
  else (p, "")

/-- The output path `f"{filepath}{'_updated'}{ext}"`. -/
def newFilename (p : String) : String :=
  (splitext p).1 ++ "_updated" ++ (splitext p).2

/-- Observable outcome of `update_footprint`: the IndexError crash, the
zero-match return (diagnostic printed, nothing written, `contents` being
the in-memory line list at that point), or a written file with its name,
contents, update count, and whether the partial-update warning fired. -/
inductive UpdateResult where
  | crash : UpdateResult
  | noFile (contents : List String) : UpdateResult
  | written (filename : String) (contents : List String) (updated : Nat)
      (shortWarning : Bool) : UpdateResult
deriving DecidableEq, Repr

/-- `KiCadUtils.update_footprint`, with the file already read into `lines`
(each entry one line, newline included). -/
def update_footprint (filename : String) (lines : List String) (df : List Row)
    (footprint_name : String) : UpdateResult :=
  match scanFrom df footprint_name lines.length (initState lines) 0 with
  | .error _ => .crash
  | .ok s =>
      if s.footprintsUpdated = 0 then .noFile s.lines
      else .written (newFilename filename) s.lines s.footprintsUpdated
             (decide (s.footprintsUpdated < df.length))

/-- A well-shaped footprint block of the PCB file: the opening declaration,
some lines, the coordinate line, some more lines, then the
reference-designator line. -/
structure FPBlock where
  declLine : String
  gap1 : List String
  coordLine : String
  gap2 : List String
  refLine : String
deriving DecidableEq, Repr

/-- The lines of a block, in file order. -/
def blockLines (b : FPBlock) : List String :=
  b.declLine :: b.gap1 ++ b.coordLine :: b.gap2 ++ [b.refLine]

/-- A line that passes the rewriter's footprint-opening test for name `F`. -/
def isDeclLine (F l : String) : Prop :=
  occurs (declPat F) l = true ∧ occurs propPat l = false

instance (F l : String) : Decidable (isDeclLine F l) := by
  unfold isDeclLine; infer_instance

/-- A line inside a block that triggers neither the coordinate test nor the
reference test of the scanner. -/
def innerNeutral (l : String) : Prop :=
  (occurs atPat l = true → occurs propPat l = true) ∧ occurs refPat l = false

instance (l : String) : Decidable (innerNeutral l) := by
  unfold innerNeutral; infer_instance

/-- Well-formedness of one footprint block with respect to the scanner. -/
def goodBlock (F : String) (b : FPBlock) : Prop :=
  isDeclLine F b.declLine ∧ occurs atPat b.declLine = false ∧
  (∀ l ∈ b.gap1, innerNeutral l) ∧
  occurs atPat b.coordLine = true ∧ occurs propPat b.coordLine = false ∧
  (∀ l ∈ b.gap2, innerNeutral l) ∧
  occurs refPat b.refLine = true

instance (F : String) (b : FPBlock) : Decidable (goodBlock F b) := by
  unfold goodBlock; infer_instance

/-- The block after the rewriter's update: its coordinate line is replaced
by the formatted line of the frame row whose channel matches the block's
reference-designator suffix (if both lookups succeed). -/
def updatedBlock (df : List Row) (b : FPBlock) : FPBlock :=
  match refChannelOfLine b.refLine with
  | some c =>
      match df.find? (fun r => r.channel == c) with
      | some row => { b with coordLine := coordLineFor row }
      | none => b
  | none => b

/-- A PCB file as alternating separator line runs and footprint blocks,
followed by trailing lines. -/
def assemble (ps : List (List String × FPBlock)) (tl : List String) : List String :=
  match ps with
  | [] => tl
  | (sep, b) :: rest => sep ++ blockLines b ++ assemble rest tl

/-- Outcome of running Steps 6-7 of the interactive script. -/
inductive PipeOutcome where
  | typeError : PipeOutcome
  | otherError : PipeOutcome
  | completed (result : UpdateResult) : PipeOutcome
deriving DecidableEq, Repr

/-- Steps 6 and 7 of `example_update_pcb_from_dxf.main`: the Step 6 call
passes the keyword set `step6Kwargs` to `apply_remapping_v2`; Python raises
a TypeError at the call when a keyword names no parameter. Only if the call
were accepted would the remapping run and the matching label's rows be
passed on to `update_footprint`. -/
def mainStep6And7 (results : List Row) (selectedLabel : String) (offset : ℚ × ℚ)
    (flip : Bool) (pcbFilename : String) (pcbLines : List String)
    (footprint : String) : PipeOutcome :=
  if ¬ kwargsAccepted applyRemappingV2Params step6Kwargs then .typeError
  else
    match apply_remapping_v2 results "forearm-pattern" selectedLabel offset flip with
    | .error _ => .otherError
    | .ok remapped =>
        .completed (update_footprint pcbFilename pcbLines
          (labelRows selectedLabel remapped) footprint)

/-- C8: every execution of the interactive script that reaches Step 6 raises
a TypeError before any remapping or PCB rewriting happens, because the call
site passes the keyword `style`, which is not a parameter of
`apply_remapping_v2`. -/
theorem step6_always_type_error (results : List Row) (selectedLabel : String)
    (offset : ℚ × ℚ) (flip : Bool) (pcbFilename : String) (pcbLines : List String)
    (footprint : String) :
    mainStep6And7 results selectedLabel offset flip pcbFilename pcbLines footprint
      = PipeOutcome.typeError := by
  have h : kwargsAccepted applyRemappingV2Params step6Kwargs = false := by decide
  simp [mainStep6And7, h]

/-- C9: the `flip_y` parameter of `get_coordinates_from_dxf` is never read
in the function body, so the returned frame is identical for both values. -/
theorem flip_y_has_no_effect (entities : List RawEntity) (specs : List ElementSpec)
    (viz exp vb : Bool) :
    get_coordinates_from_dxf entities specs true viz exp vb =
      get_coordinates_from_dxf entities specs false viz exp vb := rfl

/-- C10: on an empty frame the scan breaks before examining any line, zero
footprints are updated, the line list is untouched, and the zero-match
diagnostic path (no output file) is taken. -/
theorem update_footprint_empty_frame (filename F : String) (lines : List String) :
    update_footprint filename lines [] F = UpdateResult.noFile lines := by
  cases lines with
  | nil => rfl
  | cons a tl => simp [update_footprint, scanFrom, initState]

/-- Channels handed out by `assignFrom` to the rows of one label continue
the count of `prior` and are consecutive. -/
theorem assignFrom_label_channels (lab : String) (rows : List Row4) :
    ∀ prior, ((assignFrom prior rows).filter (fun r => r.label == lab)).map Row.channel
      = List.range' (countLabel4 lab prior + 1) (countLabel4 lab rows) := by
  induction rows with
  | nil => intro prior; simp [assignFrom, countLabel4]
  | cons r rs ih =>
      intro prior
      by_cases h : r.label = lab
      · have hc : countLabel4 lab (prior ++ [r]) = countLabel4 lab prior + 1 := by
          simp [countLabel4, List.filter_append, h]
        have hr : countLabel4 lab (r :: rs) = countLabel4 lab rs + 1 := by
          simp [countLabel4, h]
        simp only [assignFrom, List.filter_cons, h, beq_self_eq_true, if_pos,
          List.map_cons]
        rw [hr, List.range'_succ, ih (prior ++ [r]), hc]
      · have hc : countLabel4 lab (prior ++ [r]) = countLabel4 lab prior := by
          simp [countLabel4, List.filter_append, h]
        have hr : countLabel4 lab (r :: rs) = countLabel4 lab rs := by
          simp [countLabel4, h]
        have hb : (r.label == lab) = false := beq_eq_false_iff_ne.mpr h
        simp only [assignFrom, List.filter_cons, hb, if_neg, Bool.false_eq_true,
          not_false_iff]
        rw [hr, ih (prior ++ [r]), hc]

/-- C3: in the frame returned by `get_coordinates_from_dxf`, the channel
numbers of the rows sharing any one label are exactly 1, 2, ..., N in
extraction order after deduplication. -/
theorem extraction_channels_contiguous (entities : List RawEntity)
    (specs : List ElementSpec) (fy viz exp vb : Bool) (lab : String) :
    ((get_coordinates_from_dxf entities specs fy viz exp vb).filter
        (fun r => r.label == lab)).map Row.channel
      = List.range' 1
          (((get_coordinates_from_dxf entities specs fy viz exp vb).filter
              (fun r => r.label == lab)).length) := by
  have h := assignFrom_label_channels lab (dedup (entities.map (entityRow specs))) []
  have hlen : ((assignFrom [] (dedup (entities.map (entityRow specs)))).filter
      (fun r => r.label == lab)).length
      = countLabel4 lab (dedup (entities.map (entityRow specs))) := by
    have := congrArg List.length h
    simpa [countLabel4] using this
  simp only [get_coordinates_from_dxf] at *
  rw [hlen]
  simpa [countLabel4] using h

/-- The radius-match predicate actually used by the extractor:
`np.isclose(r, spec_radius, atol=0.1)` with numpy's default relative
tolerance, restricted to specs of entity kind CIRCLE. -/
def specMatches (r : ℚ) (sp : ElementSpec) : Prop :=
  sp.entity = "CIRCLE" ∧ |r - sp.radius| ≤ 1/10 + |sp.radius| / 100000

theorem specMatches_iff (r : ℚ) (sp : ElementSpec) :
    (sp.entity == "CIRCLE" && npIsClose r sp.radius) = true ↔ specMatches r sp := by
  simp [npIsClose, specMatches]

/-- C4 (amended): the extractor labels a circle of rounded radius `r` with
the name of the first CIRCLE spec satisfying
`|r - radius| ≤ 0.1 + 1e-5 * |radius|` (numpy `isclose` with `atol=0.1` and
the default `rtol=1e-5`), and with the synthetic label `radius_<r>` when no
spec matches; first match wins in spec table order. -/
theorem labelOf_first_match (specs : List ElementSpec) (r : ℚ) :
    (∃ pre sp post, specs = pre ++ sp :: post ∧ specMatches r sp ∧
        (∀ sp2 ∈ pre, ¬ specMatches r sp2) ∧ labelOf specs r = sp.name)
    ∨ ((∀ sp ∈ specs, ¬ specMatches r sp) ∧ labelOf specs r = "radius_" ++ fmtQ r) := by
  induction specs with
  | nil => exact Or.inr ⟨by simp, rfl⟩
  | cons sp specs ih =>
      by_cases hm : (sp.entity == "CIRCLE" && npIsClose r sp.radius) = true
      · refine Or.inl ⟨[], sp, specs, rfl, (specMatches_iff r sp).mp hm, by simp, ?_⟩
        simp [labelOf, List.find?, hm]
      · have hlab : labelOf (sp :: specs) r = labelOf specs r := by
          simp only [labelOf, List.find?]
          rw [Bool.of_not_eq_true hm]
        have hnm : ¬ specMatches r sp := fun hc => hm ((specMatches_iff r sp).mpr hc)
        rcases ih with ⟨pre, sp1, post, heq, hmatch, hpre, hname⟩ | ⟨hall, hname⟩
        · refine Or.inl ⟨sp :: pre, sp1, post, by simp [heq], hmatch, ?_, by
            rw [hlab, hname]⟩
          intro sp2 h2
          rcases List.mem_cons.mp h2 with h2 | h2
          · exact h2 ▸ hnm
          · exact hpre sp2 h2
        · refine Or.inr ⟨?_, by rw [hlab, hname]⟩
          intro sp2 h2
          rcases List.mem_cons.mp h2 with h2 | h2
          · exact h2 ▸ hnm
          · exact hall sp2 h2

/-- A raw radius of 5000.24 rounds to one decimal place as 5000.2. -/
theorem round1_of_example : round1 (500024/100) = 25001/5 := by
  unfold round1
  rw [round_eq]
  have h1 : (10:ℚ) * (500024/100) + 1/2 = 500029/10 := by norm_num
  rw [h1]
  have h2 : ⌊(500029/10 : ℚ)⌋ = 50002 := by
    rw [Int.floor_eq_iff] <;> norm_num
  rw [h2]
  norm_num

/-- C4 (counterexample to the claim as stated): a circle whose rounded
radius differs from the spec radius by 0.12 — more than the claimed
absolute tolerance 0.1 — is nevertheless labeled with the spec's name,
because the numpy default relative tolerance widens the window. -/
theorem tolerance_is_not_absolute :
    (get_coordinates_from_dxf [⟨0, 0, 500024/100⟩] [⟨"e", 500008/100, "CIRCLE"⟩]
        true false false false).map Row.label = ["e"]
    ∧ ¬ (|round1 (500024/100) - 500008/100| ≤ 1/10) := by
  have habs : |round1 (500024/100) - (500008/100 : ℚ)| = 3/25 := by
    rw [round1_of_example,
      show (25001/5 - 500008/100 : ℚ) = 3/25 by norm_num,
      abs_of_nonneg (by norm_num : (0:ℚ) ≤ 3/25)]
  constructor
  · have hnp : npIsClose (round1 (500024/100)) (500008/100) = true := by
      simp only [npIsClose, decide_eq_true_eq, habs]
      rw [abs_of_nonneg (by norm_num : (0:ℚ) ≤ (500008/100 : ℚ))]
      norm_num
    simp [get_coordinates_from_dxf, entityRow, dedup, dedupGo, assignFrom,
      labelOf, List.find?, hnp]
  · rw [habs]
    norm_num

theorem setTriples_labelchan (p : Row → Bool) :
    ∀ (vals : List (ℚ × ℚ × ℚ)) (rows : List Row),
      (setTriples p vals rows).map (fun r => (r.label, r.channel))
        = rows.map (fun r => (r.label, r.channel)) := by
  intro vals rows
  induction rows generalizing vals with
  | nil => rfl
  | cons r rs ih =>
      by_cases h : p r = true
      · cases vals with
        | nil => simp [setTriples, h, ih]
        | cons v vs => simp [setTriples, h, ih, setTriple]
      · simp [setTriples, Bool.of_not_eq_true h, ih]

theorem setTriples_filter_of_disjoint (p q : Row → Bool)
    (hq : ∀ r v, q (setTriple r v) = q r)
    (hdisj : ∀ r, q r = true → p r = false) :
    ∀ (vals : List (ℚ × ℚ × ℚ)) (rows : List Row),
      (setTriples p vals rows).filter q = rows.filter q := by
  intro vals rows
  induction rows generalizing vals with
  | nil => rfl
  | cons r rs ih =>
      by_cases h : p r = true
      · have hqr : q r = false := by
          cases hqr : q r with
          | false => rfl
          | true => rw [hdisj r hqr] at h; cases h
        cases vals with
        | nil => simp [setTriples, h, List.filter_cons, hqr, ih]
        | cons v vs =>
            have : q (setTriple r v) = false := by rw [hq]; exact hqr
            simp [setTriples, h, List.filter_cons, hqr, this, ih]
      · by_cases hqr : q r = true
        · simp [setTriples, Bool.of_not_eq_true h, List.filter_cons, hqr, ih]
        · simp [setTriples, Bool.of_not_eq_true h, List.filter_cons,
            Bool.of_not_eq_true hqr, ih]

theorem setTriples_triples (p : Row → Bool) :
    ∀ (vals : List (ℚ × ℚ × ℚ)) (rows : List Row),
      vals.length = (rows.filter p).length →
      ((setTriples p vals rows).map triple : Multiset (ℚ × ℚ × ℚ))
          + ↑((rows.filter p).map triple)
        = ↑(rows.map triple) + ↑vals := by
  intro vals rows
  induction rows generalizing vals with
  | nil =>
      intro hlen
      have : vals = [] := List.eq_nil_of_length_eq_zero (by simpa using hlen)
      simp [this, setTriples]
  | cons r rs ih =>
      intro hlen
      by_cases h : p r = true
      · rw [List.filter_cons_of_pos h] at hlen
        cases vals with
        | nil => simp at hlen
        | cons v vs =>
            have hlen' : vs.length = (rs.filter p).length := by
              simpa using hlen
            have hIH := ih vs hlen'
            have hv : triple (setTriple r v) = v := rfl
            simp only [setTriples, h, if_pos, List.map_cons,
              List.filter_cons_of_pos, hv]
            simp only [← Multiset.cons_coe, Multiset.cons_add, Multiset.add_cons]
            rw [hIH]
            exact Multiset.cons_swap _ _ _
      · have hpf : p r = false := Bool.of_not_eq_true h
        rw [List.filter_cons_of_neg (by simp [hpf])] at hlen
        have hIH := ih vals hlen
        simp only [setTriples, hpf, Bool.false_eq_true, if_neg, not_false_iff,
          List.map_cons, List.filter_cons_of_neg (by simp [hpf] : ¬ p r = true)]
        simp only [← Multiset.cons_coe, Multiset.cons_add, Multiset.add_cons]
        rw [hIH]

theorem inChanRange_setTriple (s e : Nat) (r : Row) (v : ℚ × ℚ × ℚ) :
    inChanRange s e (setTriple r v) = inChanRange s e r := rfl

theorem inChanRange_disjoint {s1 e1 s2 e2 : Nat} (hd : e1 < s2 ∨ e2 < s1) (r : Row) :
    inChanRange s2 e2 r = true → inChanRange s1 e1 r = false := by
  simp only [inChanRange, decide_eq_true_eq, decide_eq_false_iff_not]
  omega

/-- A successful range swap permutes the (x, y, r) triples and leaves every
row's label and channel unchanged. -/
theorem swapRanges_ok (pr : Nat × Nat × Nat × Nat) (rows rows' : List Row)
    (hdisj : pr.2.1 < pr.2.2.1 ∨ pr.2.2.2 < pr.1)
    (h : swapRanges pr rows = .ok rows') :
    ((rows'.map triple : Multiset (ℚ × ℚ × ℚ)) = ↑(rows.map triple)) ∧
    rows'.map (fun r => (r.label, r.channel)) = rows.map (fun r => (r.label, r.channel)) := by
  unfold swapRanges at h
  by_cases hlen : ((rows.filter (inChanRange pr.1 pr.2.1)).map triple).length
      = ((rows.filter (inChanRange pr.2.2.1 pr.2.2.2)).map triple).length
  · rw [if_pos hlen] at h
    have hrows : rows' = setTriples (inChanRange pr.2.2.1 pr.2.2.2)
        ((rows.filter (inChanRange pr.1 pr.2.1)).map triple)
        (setTriples (inChanRange pr.1 pr.2.1)
          ((rows.filter (inChanRange pr.2.2.1 pr.2.2.2)).map triple) rows) := by
      cases h; rfl
    have hmidfilter : (setTriples (inChanRange pr.1 pr.2.1)
        ((rows.filter (inChanRange pr.2.2.1 pr.2.2.2)).map triple) rows).filter
          (inChanRange pr.2.2.1 pr.2.2.2)
        = rows.filter (inChanRange pr.2.2.1 pr.2.2.2) :=
      setTriples_filter_of_disjoint _ _
        (fun r v => inChanRange_setTriple _ _ r v)
        (fun r hr => inChanRange_disjoint hdisj r hr) _ _
    constructor
    · have hlen1 : ((rows.filter (inChanRange pr.2.2.1 pr.2.2.2)).map triple).length
          = (rows.filter (inChanRange pr.1 pr.2.1)).length := by
        simpa using hlen.symm
      have hinner := setTriples_triples (inChanRange pr.1 pr.2.1)
        ((rows.filter (inChanRange pr.2.2.1 pr.2.2.2)).map triple) rows hlen1
      have hlen2 : ((rows.filter (inChanRange pr.1 pr.2.1)).map triple).length
          = ((setTriples (inChanRange pr.1 pr.2.1)
              ((rows.filter (inChanRange pr.2.2.1 pr.2.2.2)).map triple) rows).filter
                (inChanRange pr.2.2.1 pr.2.2.2)).length := by
        rw [hmidfilter]; simpa using hlen
      have houter := setTriples_triples (inChanRange pr.2.2.1 pr.2.2.2)
        ((rows.filter (inChanRange pr.1 pr.2.1)).map triple) _ hlen2
      rw [hmidfilter] at houter
      rw [← hrows] at houter
      -- houter : T(rows') + Tp2(rows) = T(mid) + v1
      -- hinner : T(mid) + Tp1(rows) = T(rows) + v2
      have hcomb : ((rows'.map triple : Multiset (ℚ × ℚ × ℚ))
            + ↑((rows.filter (inChanRange pr.2.2.1 pr.2.2.2)).map triple))
            + ↑((rows.filter (inChanRange pr.1 pr.2.1)).map triple)
          = (↑(rows.map triple)
            + ↑((rows.filter (inChanRange pr.2.2.1 pr.2.2.2)).map triple))
            + ↑((rows.filter (inChanRange pr.1 pr.2.1)).map triple) := by
        rw [houter, hinner]
      exact add_right_cancel (add_right_cancel hcomb)
    · rw [hrows, setTriples_labelchan, setTriples_labelchan]
  · rw [if_neg hlen] at h
    cases h

/-- The whole swap loop permutes triples and preserves labels and channels,
provided each pair's two channel ranges are disjoint. -/
theorem applySwaps_ok : ∀ (ps : List (Nat × Nat × Nat × Nat)) (rows rows' : List Row),
    (∀ pr ∈ ps, pr.2.1 < pr.2.2.1 ∨ pr.2.2.2 < pr.1) →
    applySwaps ps rows = .ok rows' →
    ((rows'.map triple : Multiset (ℚ × ℚ × ℚ)) = ↑(rows.map triple)) ∧
    rows'.map (fun r => (r.label, r.channel)) = rows.map (fun r => (r.label, r.channel))
  | [], rows, rows', _, h => by
      cases h; exact ⟨rfl, rfl⟩
  | pr :: ps, rows, rows', hd, h => by
      simp only [applySwaps] at h
      cases hsw : swapRanges pr rows with
      | error e => rw [hsw] at h; simp [Bind.bind, Except.bind] at h
      | ok mid =>
          rw [hsw] at h
          simp only [Bind.bind, Except.bind] at h
          have h1 := swapRanges_ok pr rows mid (hd pr (by simp)) hsw
          have h2 := applySwaps_ok ps mid rows' (fun q hq => hd q (by simp [hq])) h
          exact ⟨h2.1.trans h1.1, h2.2.trans h1.2⟩

theorem swapPairs8_disjoint : ∀ pr ∈ swapPairs8, pr.2.1 < pr.2.2.1 ∨ pr.2.2.2 < pr.1 := by
  decide

theorem renumberFrom_triples : ∀ (n : Nat) (l : List Row),
    (renumberFrom n l).map triple = l.map triple
  | _, [] => rfl
  | n, r :: rs => by simp [renumberFrom, renumberFrom_triples (n + 1) rs, setChan, triple]

theorem renumberFrom_labels : ∀ (n : Nat) (l : List Row),
    (renumberFrom n l).map Row.label = l.map Row.label
  | _, [] => rfl
  | n, r :: rs => by simp [renumberFrom, renumberFrom_labels (n + 1) rs, setChan]

theorem renumberFrom_length : ∀ (n : Nat) (l : List Row),
    (renumberFrom n l).length = l.length
  | _, [] => rfl
  | n, r :: rs => by simp [renumberFrom, renumberFrom_length (n + 1) rs]

theorem enumFrom_filter_snd (label : String) : ∀ (n : Nat) (l : List Row),
    ((List.enumFrom n l).filter (fun p => p.2.label == label)).map (fun p => p.2)
      = l.filter (fun r => r.label == label)
  | _, [] => rfl
  | n, r :: rs => by
      by_cases h : (r.label == label) = true
      · simp [List.enumFrom, List.filter_cons, h, enumFrom_filter_snd label (n + 1) rs]
      · simp [List.enumFrom, List.filter_cons, Bool.of_not_eq_true h,
          enumFrom_filter_snd label (n + 1) rs]

theorem enum_filter_length (label : String) (df : List Row) :
    ((df.enum).filter (fun p => p.2.label == label)).length = countLabel label df := by
  have h := congrArg List.length (enumFrom_filter_snd label 0 df)
  simpa [countLabel, List.enum] using h

/-- Evaluation of `apply_remapping_v2` for a present label, a recognized
style and at most 128 selected rows: separate the label's rows, remap them
with the style, transform, and append the untouched rows. -/
theorem apply_known_eq (df : List Row) (style label : String) (off : ℚ × ℚ) (flip : Bool)
    (hany : df.any (fun r => r.label == label) = true)
    (hkn : knownStyle style = true)
    (hcount : countLabel label df ≤ 128) :
    apply_remapping_v2 df style label off flip =
      match remapStyle style (labelRows label df) with
      | .ok rem => .ok (rem.map (transformRow off flip)
          ++ df.filter (fun r => r.label != label))
      | .error e => .error e := by
  unfold apply_remapping_v2
  rw [if_neg (by simp [hany]), if_neg (by simp [hkn])]
  have h129 : ¬ (129 ≤ ((df.enum).filter (fun p => p.2.label == label)).length) := by
    rw [enum_filter_length]
    omega
  rw [if_neg h129]
  simp only [pure_bind]
  rw [show ((df.enum).filter (fun p => p.2.label == label)).map (fun p => p.2)
        = labelRows label df from enumFrom_filter_snd label 0 df]
  cases hrem : remapStyle style (labelRows label df) with
  | ok rem => simp [Bind.bind, Except.bind, hrem]
  | error e => simp [Bind.bind, Except.bind, hrem]

theorem triple_transformRow (off : ℚ × ℚ) (flip : Bool) (r : Row) :
    triple (transformRow off flip r) = transformTriple off flip (triple r) := rfl

theorem label_transformRow (off : ℚ × ℚ) (flip : Bool) (r : Row) :
    (transformRow off flip r).label = r.label := rfl

theorem labelRows_append_left (label : String) (a b : List Row)
    (ha : ∀ r ∈ a, r.label = label) (hb : ∀ r ∈ b, ¬ r.label = label) :
    labelRows label (a ++ b) = a := by
  unfold labelRows
  rw [List.filter_append,
    List.filter_eq_self.mpr (fun r hr => by simp [ha r hr]),
    List.filter_eq_nil.mpr (fun r hr => by simp [hb r hr]),
    List.append_nil]

/-- Every successful style remapping permutes the selected rows' (x, y, r)
triples, permutes the label column, and keeps the row count. -/
theorem remapStyle_ok (style : String) (sel rem : List Row)
    (h : remapStyle style sel = .ok rem) :
    ((rem.map triple : Multiset (ℚ × ℚ × ℚ)) = ↑(sel.map triple)) ∧
    ((rem.map Row.label : Multiset String) = ↑(sel.map Row.label)) ∧
    rem.length = sel.length := by
  have hfst : (Prod.fst ∘ fun (r : Row) => (r.label, r.channel)) = Row.label := rfl
  unfold remapStyle at h
  by_cases h8 : (style == "8-by-8") = true
  · rw [if_pos h8] at h
    obtain ⟨ht, hlc⟩ := applySwaps_ok swapPairs8 sel rem swapPairs8_disjoint h
    have hm : rem.map Row.label = sel.map Row.label := by
      have := congrArg (List.map Prod.fst) hlc
      simpa [List.map_map, hfst] using this
    refine ⟨ht, by rw [hm], ?_⟩
    have := congrArg List.length hlc
    simpa using this
  · rw [if_neg h8] at h
    by_cases hsw : (style == "8-by-8_swap") = true
    · rw [if_pos hsw] at h
      cases ha : applySwaps swapPairs8 sel with
      | error e => rw [ha] at h; simp [Bind.bind, Except.bind] at h
      | ok mid =>
          rw [ha] at h
          simp only [Bind.bind, Except.bind] at h
          obtain ⟨ht1, hlc1⟩ := applySwaps_ok swapPairs8 sel mid swapPairs8_disjoint ha
          obtain ⟨ht2, hlc2⟩ := swapRanges_ok (1, 64, 65, 128) mid rem
            (Or.inl (by norm_num)) h
          have hm : rem.map Row.label = sel.map Row.label := by
            have := congrArg (List.map Prod.fst) (hlc2.trans hlc1)
            simpa [List.map_map, hfst] using this
          refine ⟨ht2.trans ht1, by rw [hm], ?_⟩
          have := congrArg List.length (hlc2.trans hlc1)
          simpa using this
    · rw [if_neg hsw] at h
      cases h
      have hperm := List.perm_insertionSort forearmR sel
      refine ⟨?_, ?_, ?_⟩
      · rw [renumberFrom_triples]
        exact Multiset.coe_eq_coe.mpr (hperm.map triple)
      · rw [renumberFrom_labels]
        exact Multiset.coe_eq_coe.mpr (hperm.map Row.label)
      · rw [renumberFrom_length, List.length_insertionSort]

/-- C2 (amended): whenever `apply_remapping_v2` returns a frame (for at most
128 rows of the target label), the number of rows with that label and the
multiset of their radii are unchanged; for a recognized style the multiset
of their (x, y, r) triples equals the input multiset transformed by the
final offset and optional y negation; for an unrecognized style the frame
is returned entirely unchanged — in particular with no offset applied. -/
theorem remapping_preserves_label_data (df : List Row) (style label : String)
    (offset : ℚ × ℚ) (flip : Bool) (out : List Row)
    (hcount : countLabel label df ≤ 128)
    (hok : apply_remapping_v2 df style label offset flip = .ok out) :
    countLabel label out = countLabel label df ∧
    (((labelRows label out).map Row.r : Multiset ℚ) = ↑((labelRows label df).map Row.r)) ∧
    (knownStyle style = true →
      ((labelRows label out).map triple : Multiset (ℚ × ℚ × ℚ))
        = ↑((labelRows label df).map (fun r => transformTriple offset flip (triple r)))) ∧
    (knownStyle style = false → out = df) := by
  by_cases hany : (df.any fun r => r.label == label) = true
  case neg =>
    have hout : df = out := by
      unfold apply_remapping_v2 at hok
      rw [if_pos hany] at hok
      injection hok
    subst hout
    have hnil : labelRows label df = [] := by
      unfold labelRows
      rw [List.filter_eq_nil]
      intro r hr hc
      exact hany (List.any_eq_true.mpr ⟨r, hr, hc⟩)
    exact ⟨rfl, rfl, fun _ => by rw [hnil]; simp, fun _ => rfl⟩
  case pos =>
    by_cases hkn : knownStyle style = true
    case neg =>
      have hout : df = out := by
        unfold apply_remapping_v2 at hok
        rw [if_neg (by simp [hany]), if_pos hkn] at hok
        injection hok
      subst hout
      exact ⟨rfl, rfl, fun hc => absurd hc hkn, fun _ => rfl⟩
    case pos =>
      rw [apply_known_eq df style label offset flip hany hkn hcount] at hok
      cases hrem : remapStyle style (labelRows label df) with
      | error e => rw [hrem] at hok; cases hok
      | ok rem =>
          rw [hrem] at hok
          injection hok with hout
          obtain ⟨htr, hlabm, hlen⟩ := remapStyle_ok style _ rem hrem
          have hsel : ∀ r ∈ labelRows label df, r.label = label := by
            intro r hr
            have := List.of_mem_filter hr
            simpa using this
          have hrem_lab : ∀ r ∈ rem, r.label = label := by
            intro r hr
            have h1 : r.label ∈ (↑(rem.map Row.label) : Multiset String) :=
              Multiset.mem_coe.mpr (List.mem_map_of_mem Row.label hr)
            rw [hlabm] at h1
            obtain ⟨s, hs, hseq⟩ := List.mem_map.mp (Multiset.mem_coe.mp h1)
            rw [← hseq]
            exact hsel s hs
          have hothers : ∀ r ∈ df.filter (fun r => r.label != label), ¬ r.label = label := by
            intro r hr
            have := List.of_mem_filter hr
            simpa [bne_iff_ne] using this
          have hlr : labelRows label out = rem.map (transformRow offset flip) := by
            rw [← hout]
            exact labelRows_append_left _ _ _
              (fun r hr => by
                obtain ⟨s, hs, hseq⟩ := List.mem_map.mp hr
                rw [← hseq, label_transformRow]
                exact hrem_lab s hs)
              hothers
          have hcast : ∀ (f : (ℚ × ℚ × ℚ) → (ℚ × ℚ × ℚ)) (l : List Row)
              (g : Row → ℚ × ℚ × ℚ), (∀ r, g r = f (triple r)) →
              (l.map g : Multiset (ℚ × ℚ × ℚ)) = Multiset.map f ↑(l.map triple) := by
            intro f l g hg
            rw [Multiset.map_coe, List.map_map]
            exact congrArg _ (List.map_congr_left fun r _ => hg r)
          have htriples : ((labelRows label out).map triple : Multiset (ℚ × ℚ × ℚ))
              = ↑((labelRows label df).map (fun r => transformTriple offset flip (triple r))) := by
            rw [hlr, List.map_map]
            rw [hcast (transformTriple offset flip) rem (triple ∘ transformRow offset flip)
              (fun r => rfl)]
            rw [hcast (transformTriple offset flip) (labelRows label df)
              (fun r => transformTriple offset flip (triple r)) (fun r => rfl)]
            rw [htr]
          refine ⟨?_, ?_, fun _ => htriples, fun hc => absurd hkn (by rw [hc]; simp)⟩
          · show (labelRows label out).length = (labelRows label df).length
            rw [hlr, List.length_map, hlen]
          · have hproj : ∀ (l : List Row),
                (l.map Row.r : Multiset ℚ)
                  = Multiset.map (fun v : ℚ × ℚ × ℚ => v.2.2) ↑(l.map triple) := by
              intro l
              rw [Multiset.map_coe, List.map_map]
              rfl
            rw [hproj, hproj, htriples, Multiset.map_coe, Multiset.map_coe, List.map_map,
              List.map_map]
            rfl

/-- C2 (counterexample to the claim as stated): with an unrecognized
strategy name, `apply_remapping_v2` returns the frame unchanged, so the
multiset of (x, y, r) triples of the target label is NOT the input multiset
translated by the offset: here the offset (1, 0) is simply dropped. -/
theorem unknown_style_skips_offset :
    apply_remapping_v2 [⟨0, 0, 1, "electrode", 1⟩] "bogus" "electrode" (1, 0) false
        = .ok [⟨0, 0, 1, "electrode", 1⟩]
    ∧ ¬ (((labelRows "electrode" [⟨0, 0, 1, "electrode", 1⟩]).map triple : Multiset (ℚ × ℚ × ℚ))
          = ↑((labelRows "electrode" [⟨0, 0, 1, "electrode", 1⟩]).map
              (fun r => transformTriple (1, 0) false (triple r)))) := by
  constructor
  · rfl
  · intro hc
    simp only [labelRows, List.filter, triple, transformTriple, List.map] at hc
    norm_num at hc

theorem remapping_preserves_label_data_witness :
    countLabel "electrode" [⟨0, 0, 1, "electrode", 1⟩]
        = countLabel "electrode" [⟨0, 0, 1, "electrode", 1⟩] ∧
    (((labelRows "electrode" [⟨0, 0, 1, "electrode", 1⟩]).map Row.r : Multiset ℚ)
        = ↑((labelRows "electrode" [⟨0, 0, 1, "electrode", 1⟩]).map Row.r)) ∧
    (knownStyle "bogus" = true →
      ((labelRows "electrode" [⟨0, 0, 1, "electrode", 1⟩]).map triple : Multiset (ℚ × ℚ × ℚ))
        = ↑((labelRows "electrode" [⟨0, 0, 1, "electrode", 1⟩]).map
            (fun r => transformTriple (1, 0) false (triple r)))) ∧
    (knownStyle "bogus" = false → [⟨0, 0, 1, "electrode", 1⟩]
        = [(⟨0, 0, 1, "electrode", 1⟩ : Row)]) :=
  remapping_preserves_label_data [⟨0, 0, 1, "electrode", 1⟩] "bogus" "electrode"
    (1, 0) false [⟨0, 0, 1, "electrode", 1⟩] (by decide) rfl

theorem mem_renumberFrom : ∀ (n : Nat) (l : List Row) (b : Row),
    b ∈ renumberFrom n l → ∃ b0 ∈ l, ∃ k, b = setChan b0 k
  | n, [], b, h => by cases h
  | n, r :: rs, b, h => by
      rcases List.mem_cons.mp h with h | h
      · exact ⟨r, List.mem_cons_self r rs, n, h⟩
      · obtain ⟨b0, hb0, k, hk⟩ := mem_renumberFrom (n + 1) rs b h
        exact ⟨b0, List.mem_cons_of_mem r hb0, k, hk⟩

theorem forearmR_setChan (a b : Row) (m k : Nat) :
    forearmR (setChan a m) (setChan b k) ↔ forearmR a b := Iff.rfl

theorem renumberFrom_sorted : ∀ (n : Nat) (l : List Row),
    List.Sorted forearmR l → List.Sorted forearmR (renumberFrom n l)
  | n, [], _ => List.sorted_nil
  | n, r :: rs, h => by
      rw [List.sorted_cons] at h
      rw [renumberFrom, List.sorted_cons]
      refine ⟨?_, renumberFrom_sorted (n + 1) rs h.2⟩
      intro b hb
      obtain ⟨b0, hb0, k, hk⟩ := mem_renumberFrom (n + 1) rs b hb
      rw [hk]
      exact (forearmR_setChan r b0 n k).mpr (h.1 b0 hb0)

theorem renumberFrom_idem : ∀ (n : Nat) (l : List Row),
    renumberFrom n (renumberFrom n l) = renumberFrom n l
  | n, [] => rfl
  | n, r :: rs => by
      rw [renumberFrom, renumberFrom, renumberFrom_idem (n + 1) rs]
      rfl

theorem transformRow_id (r : Row) : transformRow (0, 0) false r = r := by
  simp [transformRow]

theorem map_transformRow_id (l : List Row) : l.map (transformRow (0, 0) false) = l := by
  rw [List.map_congr_left (fun r _ => transformRow_id r)]
  simp

theorem remapStyle_forearm (sel : List Row) : remapStyle "forearm-pattern" sel
    = .ok (renumberFrom 1 (List.insertionSort forearmR sel)) := rfl

/-- C7: the forearm-pattern strategy is idempotent (at the default offset
(0, 0) and no flip): applying `apply_remapping_v2` with strategy
`forearm-pattern` to its own output returns that output unchanged, so every
(x, y) position of the selected label keeps the channel number the first
application assigned. -/
theorem forearm_idempotent (df out : List Row) (label : String)
    (hcount : countLabel label df ≤ 128)
    (hok : apply_remapping_v2 df "forearm-pattern" label (0, 0) false = .ok out) :
    apply_remapping_v2 out "forearm-pattern" label (0, 0) false = .ok out := by
  have hknF : knownStyle "forearm-pattern" = true := rfl
  by_cases hany : (df.any fun r => r.label == label) = true
  case neg =>
    have hout : df = out := by
      unfold apply_remapping_v2 at hok
      rw [if_pos hany] at hok
      injection hok
    subst hout
    unfold apply_remapping_v2
    rw [if_pos hany]
  case pos =>
    rw [apply_known_eq df "forearm-pattern" label (0, 0) false hany hknF hcount,
      remapStyle_forearm] at hok
    injection hok with hout
    rw [map_transformRow_id] at hout
    have hsel : ∀ r ∈ labelRows label df, r.label = label := by
      intro r hr
      have := List.of_mem_filter hr
      simpa using this
    have hsel2lab : ∀ r ∈ renumberFrom 1 (List.insertionSort forearmR (labelRows label df)),
        r.label = label := by
      intro r hr
      obtain ⟨b0, hb0, k, hk⟩ := mem_renumberFrom _ _ r hr
      rw [hk]
      show b0.label = label
      exact hsel b0 ((List.mem_insertionSort forearmR).mp hb0)
    have hothers : ∀ r ∈ df.filter (fun r => r.label != label), ¬ r.label = label := by
      intro r hr
      have := List.of_mem_filter hr
      simpa [bne_iff_ne] using this
    have hlr : labelRows label out
        = renumberFrom 1 (List.insertionSort forearmR (labelRows label df)) := by
      rw [← hout]
      exact labelRows_append_left _ _ _ hsel2lab hothers
    have hofilter : out.filter (fun r => r.label != label)
        = df.filter (fun r => r.label != label) := by
      rw [← hout, List.filter_append,
        List.filter_eq_nil.mpr (fun r hr => by simp [hsel2lab r hr]),
        List.filter_eq_self.mpr (fun r hr => (List.mem_filter.mp hr).2),
        List.nil_append]
    have hany2 : (out.any fun r => r.label == label) = true := by
      obtain ⟨r0, hr0, hbeq⟩ := List.any_eq_true.mp hany
      have hr0m : r0 ∈ labelRows label df := List.mem_filter.mpr ⟨hr0, hbeq⟩
      have hlen2 : (labelRows label out).length = (labelRows label df).length := by
        rw [hlr, renumberFrom_length, List.length_insertionSort]
      have hpos : 0 < (labelRows label out).length := by
        rw [hlen2]
        exact List.length_pos.mpr (List.ne_nil_of_mem hr0m)
      obtain ⟨r1, hr1⟩ := List.exists_mem_of_length_pos hpos
      exact List.any_eq_true.mpr
        ⟨r1, (List.mem_filter.mp hr1).1, (List.mem_filter.mp hr1).2⟩
    have hcount2 : countLabel label out ≤ 128 := by
      show (labelRows label out).length ≤ 128
      rw [hlr, renumberFrom_length, List.length_insertionSort]
      exact hcount
    rw [apply_known_eq out "forearm-pattern" label (0, 0) false hany2 hknF hcount2,
      remapStyle_forearm]
    show Except.ok ((renumberFrom 1 (List.insertionSort forearmR (labelRows label out))).map
        (transformRow (0, 0) false) ++ out.filter (fun r => r.label != label))
      = Except.ok out
    rw [map_transformRow_id, hlr,
      List.Sorted.insertionSort_eq (renumberFrom_sorted 1 _ (List.sorted_insertionSort forearmR _)),
      renumberFrom_idem, hofilter, hout]

theorem forearm_idempotent_witness :
    apply_remapping_v2 [⟨0, 0, 1, "e", 1⟩] "forearm-pattern" "e" (0, 0) false
      = .ok [⟨0, 0, 1, "e", 1⟩] := by
  have hok0 : apply_remapping_v2 [(⟨0, 0, 1, "e", 1⟩ : Row)] "forearm-pattern" "e" (0, 0) false
      = .ok [⟨0, 0, 1, "e", 1⟩] := by
    rw [apply_known_eq [⟨0, 0, 1, "e", 1⟩] "forearm-pattern" "e" (0, 0) false rfl rfl
      (by decide), remapStyle_forearm]
    show Except.ok ((renumberFrom 1 (List.insertionSort forearmR
        (labelRows "e" [⟨0, 0, 1, "e", 1⟩]))).map (transformRow (0, 0) false)
        ++ List.filter (fun r => r.label != "e") [⟨0, 0, 1, "e", 1⟩])
      = Except.ok [(⟨0, 0, 1, "e", 1⟩ : Row)]
    rw [map_transformRow_id]
    rfl
  exact forearm_idempotent [⟨0, 0, 1, "e", 1⟩] [⟨0, 0, 1, "e", 1⟩] "e" (by decide) hok0

/-- A line that cannot pass the footprint-opening test leaves a seeking
state (no flags set) completely unchanged. -/
theorem scanStep_neutral (df : List Row) (F : String) (s : ScanState) (i : Nat)
    (hin : s.insideFootprint = false) (hhave : s.haveCoordinates = false)
    (hfound : s.foundChannel = false)
    (hdecl : occurs (declPat F) (s.lines.getD i "") = true →
             occurs propPat (s.lines.getD i "") = true) :
    scanStep df F s i = .ok s := by
  obtain ⟨lines, upd, inb, hcf, fcf, cl, cc⟩ := s
  simp only at hin hhave hfound hdecl
  subst hin hhave hfound
  rw [List.getD_eq_getElem?_getD] at hdecl
  cases hd : occurs (declPat F) (lines[i]?.getD "") with
  | false => simp [scanStep, commitStep, hd]
  | true => simp [scanStep, commitStep, hd, hdecl hd]

/-- A whole region of lines none of which passes the footprint-opening test
leaves a seeking state unchanged (in particular the line list). -/
theorem scanFrom_neutral (df : List Row) (F : String) :
    ∀ (fuel : Nat) (s : ScanState) (i : Nat),
    s.insideFootprint = false → s.haveCoordinates = false → s.foundChannel = false →
    (∀ l ∈ s.lines, occurs (declPat F) l = true → occurs propPat l = true) →
    scanFrom df F fuel s i = .ok s
  | 0, s, i, _, _, _, _ => rfl
  | fuel + 1, s, i, hin, hhave, hfound, hall => by
      unfold scanFrom
      by_cases hend : s.lines.length ≤ i
      · rw [if_pos hend]
      · rw [if_neg hend]
        by_cases hupd : df.length ≤ s.footprintsUpdated
        · rw [if_pos hupd]
        · rw [if_neg hupd]
          have hmem : s.lines.getD i "" ∈ s.lines := by
            rw [List.getD_eq_getElem?_getD, List.getElem?_eq_getElem (by omega)]
            exact List.getElem_mem _
          have hline := hall _ hmem
          rw [scanStep_neutral df F s i hin hhave hfound hline]
          exact scanFrom_neutral df F fuel s (i + 1) hin hhave hfound hall

/-- C6: when the footprint name does not occur in any line of the file, the
scan changes nothing: zero footprints are updated, the line list is
byte-identical, the zero-match diagnostic path is taken, and no output file
is written. -/
theorem update_footprint_absent (filename F : String) (lines : List String) (df : List Row)
    (habs : ∀ l ∈ lines, occurs F l = false) :
    update_footprint filename lines df F = UpdateResult.noFile lines := by
  have hFd : F.data <:+: (declPat F).data :=
    ⟨("(footprint \"" : String).data, ("\"" : String).data, rfl⟩
  have hall : ∀ l ∈ lines, occurs (declPat F) l = true → occurs propPat l = true := by
    intro l hl hocc
    have hc : occurs F l = true := occurs_of_occurs_of_infix hFd hocc
    rw [habs l hl] at hc
    cases hc
  unfold update_footprint
  rw [scanFrom_neutral df F lines.length (initState lines) 0 rfl rfl rfl hall]
  rfl

theorem update_footprint_absent_witness :
    update_footprint "a.kicad_pcb" ["hello\n", "\t\t(at 1 2)\n"] [⟨1, 2, 0, "e", 3⟩] "FOO"
      = UpdateResult.noFile ["hello\n", "\t\t(at 1 2)\n"] :=
  update_footprint_absent "a.kicad_pcb" "FOO" ["hello\n", "\t\t(at 1 2)\n"]
    [⟨1, 2, 0, "e", 3⟩] (by decide)

/-- C5: on a block holding two coordinate-pattern lines before the
reference line, the rewriter overwrites the LAST one (line index 2), not
the first (line index 1): the scanner re-records `coordinates_line` on
every match, although its own comment says "the first occurrence". -/
theorem last_coordinate_line_overwritten :
    update_footprint "b.kicad_pcb"
      ["(footprint \"F\"\n", "\t(at 1 2)\n", "\t(at 3 4)\n",
       "\t(property \"Reference\" \"U1\"\n"]
      [⟨5, 6, 0, "e", 1⟩] "F"
      = UpdateResult.written "b_updated.kicad_pcb"
          ["(footprint \"F\"\n", "\t(at 1 2)\n", "\t\t(at 5 6)\n",
           "\t(property \"Reference\" \"U1\"\n"] 1 false := by
  rfl

theorem propPat_infix_refPat : propPat.data <:+: refPat.data := by decide

theorem occurs_prop_of_occurs_ref {l : String} (h : occurs refPat l = true) :
    occurs propPat l = true :=
  occurs_of_occurs_of_infix propPat_infix_refPat h

theorem not_occurs_ref_of_not_prop {l : String} (h : occurs propPat l = false) :
    occurs refPat l = false := by
  cases hr : occurs refPat l with
  | false => rfl
  | true => rw [occurs_prop_of_occurs_ref hr] at h; cases h

/-- The step taken at a footprint-opening line: the scanner enters the
block; nothing else changes. -/
theorem scanStep_decl (df : List Row) (F : String) (s : ScanState) (i : Nat)
    (hfound : s.foundChannel = false)
    (hdc : occurs (declPat F) (s.lines.getD i "") = true)
    (hdp : occurs propPat (s.lines.getD i "") = false)
    (hda : occurs atPat (s.lines.getD i "") = false) :
    scanStep df F s i = .ok { s with insideFootprint := true } := by
  obtain ⟨lines, upd, inb, hcf, fcf, cl, cc⟩ := s
  simp only at hfound
  subst hfound
  rw [List.getD_eq_getElem?_getD] at hdc hdp hda
  have href := not_occurs_ref_of_not_prop hdp
  simp [scanStep, commitStep, hdc, hdp, hda, href]

/-- The step taken at an inner neutral line of an open block: no change. -/
theorem scanStep_inner (df : List Row) (F : String) (s : ScanState) (i : Nat)
    (hin : s.insideFootprint = true) (hfound : s.foundChannel = false)
    (hneut : innerNeutral (s.lines.getD i "")) :
    scanStep df F s i = .ok s := by
  obtain ⟨lines, upd, inb, hcf, fcf, cl, cc⟩ := s
  simp only at hin hfound
  subst hin hfound
  obtain ⟨hat, href⟩ := hneut
  rw [List.getD_eq_getElem?_getD] at hat href
  cases ha : occurs atPat (lines[i]?.getD "") with
  | false =>
      cases hd : occurs (declPat F) (lines[i]?.getD "") with
      | false => simp [scanStep, commitStep, hd, ha, href]
      | true => simp [scanStep, commitStep, hd, ha, href]
  | true =>
      have hp := hat ha
      cases hd : occurs (declPat F) (lines[i]?.getD "") with
      | false => simp [scanStep, commitStep, hd, ha, hp, href]
      | true => simp [scanStep, commitStep, hd, ha, hp, href]

/-- The step taken at the block's coordinate line: record its index. -/
theorem scanStep_coord (df : List Row) (F : String) (s : ScanState) (i : Nat)
    (hin : s.insideFootprint = true) (hfound : s.foundChannel = false)
    (hca : occurs atPat (s.lines.getD i "") = true)
    (hcp : occurs propPat (s.lines.getD i "") = false) :
    scanStep df F s i
      = .ok { s with haveCoordinates := true, coordinatesLine := some i } := by
  obtain ⟨lines, upd, inb, hcf, fcf, cl, cc⟩ := s
  simp only at hin hfound
  subst hin hfound
  rw [List.getD_eq_getElem?_getD] at hca hcp
  have href := not_occurs_ref_of_not_prop hcp
  cases hd : occurs (declPat F) (lines[i]?.getD "") with
  | false => simp [scanStep, commitStep, hd, hca, hcp, href]
  | true => simp [scanStep, commitStep, hd, hca, hcp, href]

/-- The step taken at the reference-designator line: parse the channel,
look it up, overwrite the recorded coordinate line, bump the counter, and
reset the block flags. -/
theorem scanStep_ref (df : List Row) (F : String) (s : ScanState) (i j : Nat)
    (ch : Nat) (row : Row)
    (hin : s.insideFootprint = true) (hhave : s.haveCoordinates = true)
    (hcl : s.coordinatesLine = some j)
    (hro : occurs refPat (s.lines.getD i "") = true)
    (hch : refChannelOfLine (s.lines.getD i "") = some ch)
    (hrow : df.find? (fun r => r.channel == ch) = some row) :
    scanStep df F s i
      = .ok ⟨s.lines.set j (coordLineFor row), s.footprintsUpdated + 1,
          false, false, false, some j, none⟩ := by
  obtain ⟨lines, upd, inb, hcf, fcf, cl, cc⟩ := s
  simp only at hin hhave hcl
  subst hin hhave hcl
  rw [List.getD_eq_getElem?_getD] at hro hch
  have hp := occurs_prop_of_occurs_ref hro
  simp [scanStep, commitStep, hro, hch, hp, hrow]

/-- One loop iteration inside `scanFrom`, in the running regime. -/
theorem scanFrom_step (df : List Row) (F : String) (fuel : Nat) (s : ScanState) (i : Nat)
    (hend : i < s.lines.length) (hupd : s.footprintsUpdated < df.length)
    (s' : ScanState) (hstep : scanStep df F s i = .ok s') :
    scanFrom df F (fuel + 1) s i = scanFrom df F fuel s' (i + 1) := by
  conv_lhs => rw [scanFrom]
  rw [if_neg (by omega), if_neg (by omega), hstep]
  rfl

theorem getD_append_cons (pre : List String) (x : String) (suf : List String) :
    (pre ++ x :: suf).getD pre.length "" = x := by
  rw [List.getD_eq_getElem?_getD, List.getElem?_append_right (le_refl _), Nat.sub_self]
  simp

theorem set_append_cons (pre : List String) (x y : String) (suf : List String) :
    (pre ++ x :: suf).set pre.length y = pre ++ y :: suf := by
  induction pre with
  | nil => rfl
  | cons p ps ih => simp [List.set, ih]

/-- Scanning across a run of inner neutral lines of an open block changes
nothing; the position advances past the run. -/
theorem scanFrom_gap (df : List Row) (F : String) :
    ∀ (gap : List String) (fuel : Nat) (s : ScanState) (pre rest : List String),
    s.lines = pre ++ gap ++ rest →
    s.insideFootprint = true → s.foundChannel = false →
    (∀ l ∈ gap, innerNeutral l) →
    s.footprintsUpdated < df.length →
    rest ≠ [] →
    scanFrom df F (gap.length + fuel) s pre.length
      = scanFrom df F fuel s (pre.length + gap.length)
  | [], fuel, s, pre, rest, hl, _, _, _, _, _ => by simp
  | g :: gs, fuel, s, pre, rest, hl, hin, hfound, hneut, hupd, hrest => by
      have hl' : s.lines = pre ++ g :: (gs ++ rest) := by
        rw [hl]; simp
      have hline : s.lines.getD pre.length "" = g := by
        rw [hl']; exact getD_append_cons pre g (gs ++ rest)
      have hi : pre.length < s.lines.length := by
        rw [hl']
        simp only [List.length_append, List.length_cons, List.length_nil]
        omega
      have hstep := scanStep_inner df F s pre.length hin hfound
        (by rw [hline]; exact hneut g (List.mem_cons_self g gs))
      have harith : (g :: gs).length + fuel = (gs.length + fuel) + 1 := by
        simp [List.length_cons]; omega
      rw [harith, scanFrom_step df F (gs.length + fuel) s pre.length hi hupd s hstep]
      have hrec := scanFrom_gap df F gs fuel s (pre ++ [g]) rest
        (by rw [hl]; simp) hin hfound
        (fun l hlmem => hneut l (List.mem_cons_of_mem g hlmem)) hupd hrest
      have hidx : (pre ++ [g]).length = pre.length + 1 := by simp
      rw [hidx] at hrec
      rw [hrec]
      congr 1
      simp [List.length_cons]
      omega


/-- Scanning one well-formed footprint block from a seeking state: the
block's coordinate line is overwritten with the looked-up row's line, the
update counter is bumped, and the scanner is seeking again just past the
block. -/
theorem scanFrom_block (df : List Row) (F : String) (b : FPBlock) (ch : Nat) (row : Row)
    (hb : goodBlock F b) (hch : refChannelOfLine b.refLine = some ch)
    (hrow : df.find? (fun r => r.channel == ch) = some row)
    (fuel : Nat) (s : ScanState) (pre rest : List String)
    (hl : s.lines = pre ++ blockLines b ++ rest)
    (hhave : s.haveCoordinates = false)
    (hfound : s.foundChannel = false)
    (hupd : s.footprintsUpdated < df.length) :
    scanFrom df F ((blockLines b).length + fuel) s pre.length
      = scanFrom df F fuel
          ⟨pre ++ blockLines (updatedBlock df b) ++ rest, s.footprintsUpdated + 1,
           false, false, false, some (pre.length + 1 + b.gap1.length), none⟩
          (pre.length + 1 + b.gap1.length + 1 + b.gap2.length + 1) := by
  obtain ⟨⟨hdc, hdp⟩, hda, hg1, hca, hcp, hg2, hrefo⟩ := hb
  obtain ⟨lines0, upd0, inb0, hc0, fc0, cl0, cc0⟩ := s
  simp only at hl hhave hfound hupd ⊢
  subst hhave hfound
  have hub : updatedBlock df b = { b with coordLine := coordLineFor row } := by
    simp [updatedBlock, hch, hrow]
  have hlen : (blockLines b).length = b.gap1.length + b.gap2.length + 3 := by
    simp only [blockLines, List.length_cons, List.length_append, List.length_nil]
    omega
  have hform : lines0 = pre ++ b.declLine ::
      (b.gap1 ++ b.coordLine :: (b.gap2 ++ b.refLine :: rest)) := by
    rw [hl]
    simp [blockLines]
  -- step 1: the declaration line
  have hgl1 : lines0.getD pre.length "" = b.declLine := by
    rw [hform]
    exact getD_append_cons pre b.declLine _
  have hi1 : pre.length < lines0.length := by
    rw [hform]
    simp only [List.length_append, List.length_cons, List.length_nil]
    omega
  have hstep1 := scanStep_decl df F ⟨lines0, upd0, inb0, false, false, cl0, cc0⟩
    pre.length rfl (by exact hgl1 ▸ hdc) (by exact hgl1 ▸ hdp) (by exact hgl1 ▸ hda)
  have hf1 : (blockLines b).length + fuel
      = (b.gap1.length + (1 + (b.gap2.length + (1 + fuel)))) + 1 := by
    rw [hlen]; omega
  rw [hf1, scanFrom_step df F _ _ pre.length hi1 hupd _ hstep1]
  -- step 2: the first gap
  have hrec2 := scanFrom_gap df F b.gap1 (1 + (b.gap2.length + (1 + fuel)))
    ⟨lines0, upd0, true, false, false, cl0, cc0⟩ (pre ++ [b.declLine])
    (b.coordLine :: (b.gap2 ++ b.refLine :: rest))
    (by simp only; rw [hform]; simp) rfl rfl hg1 hupd (by simp)
  have hidx1 : (pre ++ [b.declLine]).length = pre.length + 1 := by simp
  rw [hidx1] at hrec2
  rw [hrec2]
  -- step 3: the coordinate line
  have hp2 : (pre ++ b.declLine :: b.gap1).length = pre.length + 1 + b.gap1.length := by
    simp only [List.length_append, List.length_cons, List.length_nil]
    omega
  have hform2 : lines0
      = (pre ++ b.declLine :: b.gap1) ++ b.coordLine :: (b.gap2 ++ b.refLine :: rest) := by
    rw [hform]
    simp
  have hgl3 : lines0.getD (pre.length + 1 + b.gap1.length) "" = b.coordLine := by
    rw [hform2, ← hp2]
    exact getD_append_cons _ b.coordLine _
  have hi3 : pre.length + 1 + b.gap1.length < lines0.length := by
    rw [hform2]
    simp only [List.length_append, List.length_cons, List.length_nil]
    omega
  have hstep3 := scanStep_coord df F ⟨lines0, upd0, true, false, false, cl0, cc0⟩
    (pre.length + 1 + b.gap1.length) rfl rfl
    (by exact hgl3 ▸ hca) (by exact hgl3 ▸ hcp)
  have hf3 : 1 + (b.gap2.length + (1 + fuel)) = (b.gap2.length + (1 + fuel)) + 1 := by
    omega
  rw [hf3, scanFrom_step df F _ _ _ hi3 hupd _ hstep3]
  -- step 4: the second gap
  have hrec4 := scanFrom_gap df F b.gap2 (1 + fuel)
    ⟨lines0, upd0, true, true, false, some (pre.length + 1 + b.gap1.length), cc0⟩
    ((pre ++ b.declLine :: b.gap1) ++ [b.coordLine]) (b.refLine :: rest)
    (by simp only; rw [hform]; simp) rfl rfl hg2 hupd (by simp)
  have hidx4 : ((pre ++ b.declLine :: b.gap1) ++ [b.coordLine]).length
      = pre.length + 1 + b.gap1.length + 1 := by
    simp only [List.length_append, List.length_cons, List.length_nil]
    omega
  rw [hidx4] at hrec4
  rw [hrec4]
  -- step 5: the reference-designator line
  have hp4 : (((pre ++ b.declLine :: b.gap1) ++ [b.coordLine]) ++ b.gap2).length
      = pre.length + 1 + b.gap1.length + 1 + b.gap2.length := by
    simp only [List.length_append, List.length_cons, List.length_nil]
    omega
  have hform5 : lines0
      = (((pre ++ b.declLine :: b.gap1) ++ [b.coordLine]) ++ b.gap2)
          ++ b.refLine :: rest := by
    rw [hform]
    simp
  have hgl5 : lines0.getD (pre.length + 1 + b.gap1.length + 1 + b.gap2.length) ""
      = b.refLine := by
    rw [hform5, ← hp4]
    exact getD_append_cons _ b.refLine _
  have hi5 : pre.length + 1 + b.gap1.length + 1 + b.gap2.length < lines0.length := by
    rw [hform5]
    simp only [List.length_append, List.length_cons, List.length_nil]
    omega
  have hstep5 := scanStep_ref df F
    ⟨lines0, upd0, true, true, false, some (pre.length + 1 + b.gap1.length), cc0⟩
    (pre.length + 1 + b.gap1.length + 1 + b.gap2.length)
    (pre.length + 1 + b.gap1.length) ch row rfl rfl rfl
    (by exact hgl5 ▸ hrefo) (by exact hgl5 ▸ hch) hrow
  have hf5 : 1 + fuel = fuel + 1 := by omega
  rw [hf5, scanFrom_step df F _ _ _ hi5 hupd _ hstep5]
  -- identify the final state
  have hset : lines0.set (pre.length + 1 + b.gap1.length) (coordLineFor row)
      = pre ++ blockLines (updatedBlock df b) ++ rest := by
    rw [hform2, ← hp2, set_append_cons, hub]
    simp [blockLines]
  rw [hset]

/-- Once the update count has reached the frame size, the loop breaks
immediately, whatever lines remain. -/
theorem scanFrom_done (df : List Row) (F : String) (fuel : Nat) (s : ScanState) (i : Nat)
    (h : df.length ≤ s.footprintsUpdated) : scanFrom df F fuel s i = .ok s := by
  cases fuel with
  | zero => rfl
  | succ n =>
      unfold scanFrom
      by_cases hi : s.lines.length ≤ i
      · rw [if_pos hi]
      · rw [if_neg hi, if_pos h]

/-- Scanning across a run of lines that cannot open a footprint block
leaves a seeking state unchanged; the position advances past the run. -/
theorem scanFrom_seek_gap (df : List Row) (F : String) :
    ∀ (gap : List String) (fuel : Nat) (s : ScanState) (pre rest : List String),
    s.lines = pre ++ gap ++ rest →
    s.insideFootprint = false → s.haveCoordinates = false → s.foundChannel = false →
    (∀ l ∈ gap, occurs (declPat F) l = true → occurs propPat l = true) →
    s.footprintsUpdated < df.length →
    rest ≠ [] →
    scanFrom df F (gap.length + fuel) s pre.length
      = scanFrom df F fuel s (pre.length + gap.length)
  | [], fuel, s, pre, rest, hl, _, _, _, _, _, _ => by simp
  | g :: gs, fuel, s, pre, rest, hl, hin, hhave, hfound, hneut, hupd, hrest => by
      have hl' : s.lines = pre ++ g :: (gs ++ rest) := by
        rw [hl]; simp
      have hline : s.lines.getD pre.length "" = g := by
        rw [hl']; exact getD_append_cons pre g (gs ++ rest)
      have hi : pre.length < s.lines.length := by
        rw [hl']
        simp only [List.length_append, List.length_cons, List.length_nil]
        omega
      have hstep := scanStep_neutral df F s pre.length hin hhave hfound
        (by rw [hline]; exact hneut g (List.mem_cons_self g gs))
      have harith : (g :: gs).length + fuel = (gs.length + fuel) + 1 := by
        simp [List.length_cons]; omega
      rw [harith, scanFrom_step df F (gs.length + fuel) s pre.length hi hupd s hstep]
      have hrec := scanFrom_seek_gap df F gs fuel s (pre ++ [g]) rest
        (by rw [hl]; simp) hin hhave hfound
        (fun l hlmem => hneut l (List.mem_cons_of_mem g hlmem)) hupd hrest
      have hidx : (pre ++ [g]).length = pre.length + 1 := by simp
      rw [hidx] at hrec
      rw [hrec]
      congr 1
      simp [List.length_cons]
      omega

theorem blockLines_length_updated (df : List Row) (b : FPBlock) :
    (blockLines (updatedBlock df b)).length = (blockLines b).length := by
  unfold updatedBlock
  split
  · split
    · simp [blockLines]
    · rfl
  · rfl

/-- Scanning a sequence of separator-runs and well-formed blocks: every
block's coordinate line is rewritten, the counter ends at the frame size,
and the trailing lines are never examined (the loop breaks). -/
theorem scanFrom_blocks (df : List Row) (F : String) :
    ∀ (ps : List (List String × FPBlock)) (g : Nat) (pre tl : List String) (s : ScanState),
    s.lines = pre ++ assemble ps tl →
    s.insideFootprint = false → s.haveCoordinates = false → s.foundChannel = false →
    s.footprintsUpdated + ps.length = df.length →
    (∀ p ∈ ps, ∀ l ∈ p.1, occurs (declPat F) l = true → occurs propPat l = true) →
    (∀ p ∈ ps, goodBlock F p.2) →
    (∀ p ∈ ps, ∃ ch row, refChannelOfLine p.2.refLine = some ch ∧
        df.find? (fun r => r.channel == ch) = some row) →
    ∃ s', scanFrom df F ((assemble ps tl).length + g) s pre.length = .ok s' ∧
      s'.lines = pre ++ assemble (ps.map (fun p => (p.1, updatedBlock df p.2))) tl ∧
      s'.footprintsUpdated = df.length
  | [], g, pre, tl, s, hl, hin, hhave, hfound, hupd, _, _, _ => by
      simp only [List.length_nil] at hupd
      refine ⟨s, scanFrom_done df F _ s pre.length (by omega), ?_, by omega⟩
      rw [hl]
      rfl
  | (sep, b) :: ps, g, pre, tl, s, hl, hin, hhave, hfound, hupd, hsep, hblocks, hch => by
      obtain ⟨ch, row, hch1, hrow1⟩ := hch (sep, b) (List.mem_cons_self _ _)
      have hupd1 : s.footprintsUpdated < df.length := by
        simp only [List.length_cons] at hupd
        omega
      have hl1 : s.lines = pre ++ sep ++ (blockLines b ++ assemble ps tl) := by
        rw [hl]
        simp [assemble]
      have hfuel1 : (assemble ((sep, b) :: ps) tl).length + g
          = sep.length + ((blockLines b).length + ((assemble ps tl).length + g)) := by
        simp only [assemble, List.length_append]
        omega
      rw [hfuel1]
      rw [scanFrom_seek_gap df F sep ((blockLines b).length + ((assemble ps tl).length + g))
        s pre (blockLines b ++ assemble ps tl) hl1 hin hhave hfound
        (fun l hlm => hsep (sep, b) (List.mem_cons_self _ _) l hlm) hupd1
        (by simp [blockLines])]
      have hpresep : pre.length + sep.length = (pre ++ sep).length := by simp
      rw [hpresep]
      have hl2 : s.lines = (pre ++ sep) ++ blockLines b ++ assemble ps tl := by
        rw [hl1]
        simp
      rw [scanFrom_block df F b ch row (hblocks (sep, b) (List.mem_cons_self _ _))
        hch1 hrow1 ((assemble ps tl).length + g) s (pre ++ sep) (assemble ps tl)
        hl2 hhave hfound hupd1]
      have hblen := blockLines_length_updated df b
      have hidx : (pre ++ sep).length + 1 + b.gap1.length + 1 + b.gap2.length + 1
          = ((pre ++ sep) ++ blockLines (updatedBlock df b)).length := by
        simp only [List.length_append]
        rw [hblen]
        simp only [blockLines, List.length_cons, List.length_append, List.length_nil]
        omega
      rw [hidx]
      have hrec := scanFrom_blocks df F ps g
        ((pre ++ sep) ++ blockLines (updatedBlock df b)) tl
        ⟨(pre ++ sep) ++ blockLines (updatedBlock df b) ++ assemble ps tl,
         s.footprintsUpdated + 1, false, false, false,
         some ((pre ++ sep).length + 1 + b.gap1.length), none⟩
        (by simp) rfl rfl rfl
        (by simp only [List.length_cons] at hupd; simp; omega)
        (fun p hp => hsep p (List.mem_cons_of_mem _ hp))
        (fun p hp => hblocks p (List.mem_cons_of_mem _ hp))
        (fun p hp => hch p (List.mem_cons_of_mem _ hp))
      obtain ⟨s', hscan, hlines, hupd'⟩ := hrec
      refine ⟨s', hscan, ?_, hupd'⟩
      rw [hlines]
      simp [assemble]

theorem length_mk (l : List Char) : (String.mk l).length = l.length := rfl

theorem length_append_str (a b : String) : (a ++ b).length = a.length + b.length := by
  show (a ++ b).data.length = a.data.length + b.data.length
  rw [show (a ++ b).data = a.data ++ b.data from rfl, List.length_append]

theorem splitext_length (p : String) : (splitext p).1.length + (splitext p).2.length
    = p.length := by
  unfold splitext
  dsimp only
  split_ifs with h1 h2
  · rw [length_mk, length_mk, List.length_take, List.length_drop]
    have hd : p.data.length = p.length := rfl
    omega
  · rfl
  · rfl

/-- The output path always differs from the input path: the `_updated` tag
adds eight characters, so the input file is never overwritten. -/
theorem newFilename_ne (p : String) : newFilename p ≠ p := by
  intro h
  have hlen := congrArg String.length h
  rw [newFilename, length_append_str, length_append_str] at hlen
  have hs := splitext_length p
  have h8 : ("_updated" : String).length = 8 := rfl
  omega

/-- C1 (amended, N ≥ 1): on a PCB file made of N ≥ 1 well-formed footprint
blocks for name `F` separated by non-opening line runs, with a frame of N
rows whose channels cover every block's reference suffix,
`update_footprint` writes a file at the input path with `_updated` inserted
before the extension, in which each block's coordinate line is replaced by
the looked-up row's formatted line and every other line is byte-identical;
the count is N, no partial-update warning fires, and the input path is
never written. -/
theorem update_footprint_rewrites_blocks (filename F : String) (df : List Row)
    (ps : List (List String × FPBlock)) (tl : List String)
    (hne : ps ≠ [])
    (hcount : ps.length = df.length)
    (hsep : ∀ p ∈ ps, ∀ l ∈ p.1, occurs (declPat F) l = true → occurs propPat l = true)
    (hblocks : ∀ p ∈ ps, goodBlock F p.2)
    (hfound : ∀ p ∈ ps, ∃ ch row, refChannelOfLine p.2.refLine = some ch ∧
        df.find? (fun r => r.channel == ch) = some row) :
    update_footprint filename (assemble ps tl) df F
      = UpdateResult.written (newFilename filename)
          (assemble (ps.map (fun p => (p.1, updatedBlock df p.2))) tl) df.length false
    ∧ newFilename filename ≠ filename := by
  refine ⟨?_, newFilename_ne filename⟩
  obtain ⟨s', hscan, hlines, hupd⟩ := scanFrom_blocks df F ps 0 [] tl
    (initState (assemble ps tl)) rfl rfl rfl rfl (by simpa [initState] using hcount)
    hsep hblocks hfound
  unfold update_footprint
  have hscan' : scanFrom df F (assemble ps tl).length (initState (assemble ps tl)) 0
      = .ok s' := hscan
  rw [hscan']
  have hdfpos : ¬ s'.footprintsUpdated = 0 := by
    rw [hupd, ← hcount]
    intro h0
    exact hne (List.eq_nil_of_length_eq_zero h0)
  show (if s'.footprintsUpdated = 0 then UpdateResult.noFile s'.lines
      else UpdateResult.written (newFilename filename) s'.lines s'.footprintsUpdated
        (decide (s'.footprintsUpdated < df.length)))
    = UpdateResult.written (newFilename filename)
        (assemble (ps.map (fun p => (p.1, updatedBlock df p.2))) tl) df.length false
  rw [if_neg hdfpos, hupd, hlines]
  simp

/-- C1 (counterexample to the claim as stated, at N = 0): a file with zero
matching footprint blocks together with a zero-row frame yields no output
file at all — the zero-match diagnostic path is taken — whereas the claim
asserts an output file with zero changed lines is produced. -/
theorem zero_blocks_write_no_file :
    update_footprint "a.kicad_pcb" ["legend\n"] [] "CustomComponents:disk"
      = UpdateResult.noFile ["legend\n"] := rfl

theorem update_footprint_rewrites_blocks_witness :
    update_footprint "a.kicad_pcb"
        (assemble [([], ⟨"(footprint \"F\"\n", [], "\t(at 1 2)\n", [],
          "(property \"Reference\" \"U7\"\n"⟩)] ["end\n"])
        [⟨5, 6, 0, "e", 7⟩] "F"
      = UpdateResult.written (newFilename "a.kicad_pcb")
          (assemble ([(([] : List String),
            (⟨"(footprint \"F\"\n", [], "\t(at 1 2)\n", [],
              "(property \"Reference\" \"U7\"\n"⟩ : FPBlock))].map
              (fun p => (p.1, updatedBlock [⟨5, 6, 0, "e", 7⟩] p.2))) ["end\n"])
          ([(⟨5, 6, 0, "e", 7⟩ : Row)]).length false
    ∧ newFilename "a.kicad_pcb" ≠ "a.kicad_pcb" :=
  update_footprint_rewrites_blocks "a.kicad_pcb" "F" [⟨5, 6, 0, "e", 7⟩]
    [([], ⟨"(footprint \"F\"\n", [], "\t(at 1 2)\n", [], "(property \"Reference\" \"U7\"\n"⟩)]
    ["end\n"] (by decide) rfl (by decide) (by decide)
    (by
      intro p hp
      rw [List.mem_singleton] at hp
      subst hp
      exact ⟨7, ⟨5, 6, 0, "e", 7⟩, rfl, rfl⟩)
